import Mathlib

/-!
Verification of the reolink-timelapse core: a shallow embedding of the
session/token lifecycle manager (`nvr.py`), the capture loop (`capture.py`)
and the stitch pipeline (`stitch.py`), with theorems settling the spec's
testable properties against the embedded code.
-/

namespace ReolinkTimelapse

/-! ## Session manager (`nvr.py`)

`ReolinkNVR` holds `_token : str | None`, `_token_time : float` (a
monotonic-clock reading) and `_token_ttl : int`.  Clock readings and ages
are modelled as rationals. -/

/-- `_TOKEN_REFRESH_MARGIN = 300` — re-login this many seconds before expiry. -/
def TOKEN_REFRESH_MARGIN : ℚ := 300

/-- `_LOGIN_RETRIES = 5`. -/
def LOGIN_RETRIES : Nat := 5

/-- `_LOGIN_RETRY_DELAY = 30` — seconds between login retries. -/
def LOGIN_RETRY_DELAY : Nat := 30

/-- The token-related mutable fields of `ReolinkNVR`. -/
structure NVRState where
  token : Option String
  tokenTime : ℚ
  tokenTtl : ℚ
  deriving Repr, DecidableEq

/-- The fast path of `_ensure_token`: the cached token is returned without
any lock iff a token is present and `now - _token_time <= _token_ttl -
_TOKEN_REFRESH_MARGIN`. -/
def fastPathReturns (s : NVRState) (now : ℚ) : Bool :=
  match s.token with
  | some _ => decide (now - s.tokenTime ≤ s.tokenTtl - TOKEN_REFRESH_MARGIN)
  | none => false

/-- Whether a single uncontended `_ensure_token` call at time `now` performs
`_login`: the fast path misses, and the slow-path re-check
`self._token is None or age > (self._token_ttl - _TOKEN_REFRESH_MARGIN)`
holds (with the lock free, no time passes between the two checks). -/
def ensureTriggersLogin (s : NVRState) (now : ℚ) : Bool :=
  if fastPathReturns s now then false
  else
    match s.token with
    | none => true
    | some _ => decide (now - s.tokenTime > s.tokenTtl - TOKEN_REFRESH_MARGIN)

/-- A single uncontended `_ensure_token` call: returns whether `_login` ran,
the token handed to the caller, and the resulting state.  `freshToken` and
`freshTtl` stand for the token name and `leaseTime` a successful login would
store. -/
def ensureToken (s : NVRState) (now : ℚ) (freshToken : String) (freshTtl : ℚ) :
    Bool × Option String × NVRState :=
  if fastPathReturns s now then (false, s.token, s)
  else if s.token = none ∨ now - s.tokenTime > s.tokenTtl - TOKEN_REFRESH_MARGIN then
    (true, some freshToken, ⟨some freshToken, now, freshTtl⟩)
  else (false, s.token, s)

/-! ## Stitch frame selection (`stitch.py`)

`selected = frames[::every_n_frames]` — the Python extended slice keeping
indices `0, S, 2S, ...` of the sorted frame list. -/

/-- Helper for `takeEvery`: `k` is the countdown until the next kept element
(`0` keeps the head and resets the countdown to `s - 1`). -/
def takeEveryAux (s : Nat) : List α → Nat → List α
  | [], _ => []
  | a :: rest, 0 => a :: takeEveryAux s rest (s - 1)
  | _ :: rest, k + 1 => takeEveryAux s rest k

/-- `takeEvery s l` models the Python slice `l[::s]` for `s ≥ 1`: the
elements of `l` at indices `0, s, 2s, ...`. -/
def takeEvery (s : Nat) (l : List α) : List α :=
  takeEveryAux s l 0

/-! ## `_login` retry loop (`nvr.py`)

`_login` loops `for attempt in range(1, _LOGIN_RETRIES + 1)`: before every
attempt after the first it sleeps `_LOGIN_RETRY_DELAY` seconds; an HTTP
error logs and continues; a device reply with `code == 0` stores the token
and returns; otherwise the reply's `error.rspCode` is read, and the loop
continues only when it equals `-5` (session limit) — any other code breaks
out.  Falling out of the loop raises `RuntimeError`. -/

/-- The visible outcome of one login attempt: the HTTP layer raised, the
device accepted (`code == 0`, carrying `leaseTime`), or the device refused
with `error.rspCode` (absent when the error object lacks the key). -/
inductive LoginResp where
  | httpErr
  | ok (leaseTime : Int)
  | err (rspCode : Option Int)
  deriving Repr, DecidableEq

/-- Observable steps of the `_login` loop: a backoff sleep or a login
attempt (one `Login` POST). -/
inductive LEvent where
  | sleep (secs : Nat)
  | attempt
  deriving Repr, DecidableEq

/-- How `_login` ends: token stored (with the reported lease), or
`RuntimeError` raised. -/
inductive LoginResult where
  | success (leaseTime : Int)
  | failure
  deriving Repr, DecidableEq

/-- The `_login` loop from attempt number `attemptNo`, consuming one reply
from `resps` per attempt made.  Returns the emitted events and the result. -/
def loginRun : (attemptNo : Nat) → (resps : List LoginResp) → List LEvent × LoginResult
  | _, [] => ([], .failure)
  | attemptNo, r :: rs =>
    if LOGIN_RETRIES < attemptNo then ([], .failure)
    else
      let pre := (if 1 < attemptNo then [LEvent.sleep LOGIN_RETRY_DELAY] else []) ++
        [LEvent.attempt]
      match r with
      | .ok lease => (pre, .success lease)
      | .httpErr =>
        let t := loginRun (attemptNo + 1) rs
        (pre ++ t.1, t.2)
      | .err c =>
        if c = some (-5) then
          let t := loginRun (attemptNo + 1) rs
          (pre ++ t.1, t.2)
        else (pre, .failure)

/-- `_login` = the loop started at attempt 1. -/
def login (resps : List LoginResp) : List LEvent × LoginResult :=
  loginRun 1 resps

/-- The event sequence of a `_login` run making `j` attempts: `attempt`,
then `sleep 30, attempt` for each retry — i.e. `j` attempts separated by
`j - 1` fixed 30s backoffs. -/
def attemptEvents (j : Nat) : List LEvent :=
  ((List.replicate j [LEvent.sleep LOGIN_RETRY_DELAY, LEvent.attempt]).flatten).drop 1

/-! ## `capture_snapshot` (`nvr.py`)

On a non-image reply the body is parsed for `error.rspCode` / `error.detail`
(parse failure leaves `rsp_code = None` and `detail = resp.text[:300]`);
`rspCode == -6` resets `_token_time` to `0.0`; a `RuntimeError` carrying the
code and detail is raised either way.  An image reply returns the bytes. -/

/-- The HTTP reply to a `Snap` request.  `contentTypeIsImage` is the outcome
of the `"image" in content_type` test; `parsedError` is `some (code, detail)`
when the JSON parse of `body[0]["error"]` succeeds, `none` when any step of
that parse raises. -/
structure SnapHttpResp where
  contentTypeIsImage : Bool
  content : List Nat
  parsedError : Option (Int × String)
  text : String

/-- The payload of the `RuntimeError` raised on a non-image reply:
`Snap rspCode={rsp_code}: {detail}`. -/
structure SnapError where
  rspCode : Option Int
  detail : String
  deriving DecidableEq

/-- The device code reported for a non-image reply. -/
def snapCode (resp : SnapHttpResp) : Option Int :=
  match resp.parsedError with
  | some (c, _) => some c
  | none => none

/-- The detail text reported for a non-image reply. -/
def snapDetail (resp : SnapHttpResp) : String :=
  match resp.parsedError with
  | some (_, d) => d
  | none => resp.text.take 300

/-- `capture_snapshot` after `_ensure_token`: returns the image bytes, or
the raised error, together with the token state it leaves behind. -/
def captureSnapshot (s : NVRState) (resp : SnapHttpResp) :
    Except SnapError (List Nat) × NVRState :=
  if resp.contentTypeIsImage then (.ok resp.content, s)
  else
    let s2 := if snapCode resp = some (-6) then { s with tokenTime := 0 } else s
    (.error ⟨snapCode resp, snapDetail resp⟩, s2)

/-! ## Capture loop (`capture.py`)

`run_capture` loops `while not stop_event.is_set()`: for each channel it
awaits `_capture_one` (which catches every exception, logs a warning and
returns 0; on success writes the frame file and returns `len(data)`),
increments the channel's counters when the returned byte count is truthy,
and sleeps 0.5s unless the stop event is set; after the pass it logs
telemetry and waits on the stop event with the interval as timeout.

The stop event is modelled by a threshold `τ` on elapsed model time, where
time is the number of events emitted so far: `is_set` holds iff `τ ≤ t`
(monotone, as for a real `asyncio.Event`).  Snapshot outcomes are an
environment `out : channel → Option Nat` per pass (`some n` = `n` bytes
returned, `none` = `capture_snapshot` raised). -/

/-- Observable events of the capture loop. -/
inductive CEvent where
  | snap (ch : Nat)
  | write (ch : Nat) (nbytes : Nat)
  | warn (ch : Nat)
  | pause
  | passLog
  | interWait
  deriving Repr, DecidableEq

/-- `stop_event.is_set()` at model time `t`, for a stop request arriving at
time `τ`. -/
def stopSet (τ t : Nat) : Bool :=
  decide (τ ≤ t)

/-- Capture-loop state: emitted events (whose length is the model time) and
the per-channel `counts` / `total_bytes` dictionaries. -/
structure CapState where
  events : List CEvent
  counts : Nat → Nat
  totals : Nat → Nat

/-- `_capture_one`: attempts the snapshot; on success writes the frame file
and returns `len(data)`, on any exception logs a warning and returns 0. -/
def capOne (out : Option Nat) (ch : Nat) (st : CapState) : CapState × Nat :=
  match out with
  | some n => ({ st with events := st.events ++ [.snap ch, .write ch n] }, n)
  | none => ({ st with events := st.events ++ [.snap ch, .warn ch] }, 0)

/-- One iteration of the inner `for ch in channels` body: `_capture_one`,
the truthiness-guarded counter update, and the 0.5s pause skipped when the
stop event is already set. -/
def chanStep (τ : Nat) (out : Option Nat) (ch : Nat) (st : CapState) : CapState :=
  let r := capOne out ch st
  let st2 :=
    if r.2 ≠ 0 then
      { r.1 with
        counts := Function.update r.1.counts ch (r.1.counts ch + 1),
        totals := Function.update r.1.totals ch (r.1.totals ch + r.2) }
    else r.1
  if stopSet τ st2.events.length then st2
  else { st2 with events := st2.events ++ [.pause] }

/-- The full inner `for` loop over the channel list.  Note that it never
consults the stop event to cut the pass short: every channel is processed. -/
def runChannels (τ : Nat) (out : Nat → Option Nat) : List Nat → CapState → CapState
  | [], st => st
  | ch :: rest, st => runChannels τ out rest (chanStep τ (out ch) ch st)

/-- The `while not stop_event.is_set()` loop of `run_capture` (`fuel` bounds
the number of passes; `p` is the pass index selecting the outcome
environment).  After each pass: the telemetry log, then the
`wait_for(stop_event.wait(), timeout=interval)` suspension (which returns
immediately when the event is set — either way one `interWait` event). -/
def runLoop (τ : Nat) (out : Nat → Nat → Option Nat) (chans : List Nat) :
    Nat → Nat → CapState → CapState
  | 0, _, st => st
  | fuel + 1, p, st =>
    if stopSet τ st.events.length then st
    else
      let st1 := runChannels τ (out p) chans st
      let st2 := { st1 with events := st1.events ++ [.passLog, .interWait] }
      runLoop τ out chans fuel (p + 1) st2

/-- The initial capture-loop state. -/
def capInit : CapState :=
  ⟨[], fun _ => 0, fun _ => 0⟩

/-! ## Stitch pipeline (`stitch.py`)

`_encode_channel` returns early with a warning when the channel directory
has no frames; otherwise it selects `frames[::every_n_frames]`, writes the
concat file, runs one ffmpeg invocation producing the two outputs, raises
`RuntimeError` on a nonzero exit code, and removes the concat file in a
`finally` block.  `run_stitch` iterates the sorted channel directories and
awaits `_encode_channel` for each one with no surrounding `try`. -/

/-- A concat-demuxer instruction: a `file '...'` line or a `duration ...`
line.  Durations are modelled exactly as rationals. -/
inductive CLine where
  | file (path : String)
  | dur (d : ℚ)
  deriving Repr, DecidableEq

/-- The concat instruction list built by `_encode_channel`: for each
selected frame a `file` line followed by a `duration frame_dur` line, then
the last selected frame once more without a duration.  (The source indexes
`selected[-1]` and is only reached with a non-empty selection.) -/
def concatLines (sel : List String) (frameDur : ℚ) : List CLine :=
  (sel.flatMap fun f => [CLine.file f, CLine.dur frameDur]) ++
    (match sel.getLast? with
     | some last => [CLine.file last]
     | none => [])

/-- One channel directory as the stitch pipeline sees it, together with the
exit code its ffmpeg invocation would return. -/
structure ChannelJob where
  name : String
  frames : List String
  exitCode : Int
  deriving Repr, DecidableEq

/-- Observable events of the stitch pipeline. -/
inductive SEvent where
  | skipNoFrames (name : String)
  | invoke (name : String) (lines : List CLine)
  | produced (name : String)
  | errorLogged (name : String)
  | cleanup (name : String)
  deriving Repr, DecidableEq

/-- `_encode_channel` for one channel: the emitted events and `some name`
when it raises `RuntimeError` (nonzero encoder exit).  The concat-file
cleanup in the `finally` block runs on both exits. -/
def encodeChannel (job : ChannelJob) (everyN : Nat) (outputFps : ℚ) :
    List SEvent × Option String :=
  if job.frames = [] then ([.skipNoFrames job.name], none)
  else
    let sel := takeEvery everyN job.frames
    let lines := concatLines sel (1 / outputFps)
    if job.exitCode ≠ 0 then
      ([.invoke job.name lines, .errorLogged job.name, .cleanup job.name], some job.name)
    else
      ([.invoke job.name lines, .produced job.name, .cleanup job.name], none)

/-- The `for ch_dir in channel_dirs` loop of `run_stitch`: each channel is
awaited with no exception handler, so a raised `RuntimeError` propagates
and ends the loop. -/
def runStitch (jobs : List ChannelJob) (everyN : Nat) (outputFps : ℚ) :
    List SEvent × Option String :=
  match jobs with
  | [] => ([], none)
  | j :: rest =>
    let r := encodeChannel j everyN outputFps
    match r.2 with
    | some e => (r.1, some e)
    | none =>
      let r2 := runStitch rest everyN outputFps
      (r.1 ++ r2.1, r2.2)

/-! ## Concurrent `_ensure_token` (`nvr.py`)

A cooperative-interleaving model of `n` tasks each running one
`_ensure_token` call.  Atomic blocks follow the `await` points of the
source: the lock-free fast-path check; the lock acquisition fused with the
re-check under the lock (an uncontended `asyncio.Lock.acquire` does not
suspend, and no `await` separates acquisition from the re-check); and the
whole `_login` call fused with the `return`/lock-release (during `_login`
the other tasks observe only "no valid token, lock held", which is constant
throughout it).  Time is frozen across the burst, so a credential's
staleness does not change except through `_login`; `gen` numbers the issued
credentials, so `gen = 1` is the one issued by the single login. -/

/-- Program counter of one `_ensure_token` task. -/
inductive Pc where
  | start
  | acquiring
  | loggingIn
  | done
  deriving Repr, DecidableEq

/-- One task: its program counter and, once finished, the generation of the
credential it returned. -/
structure TaskSt where
  pc : Pc
  result : Option Nat
  deriving Repr, DecidableEq

/-- Global state of the burst: the tasks, whether the held credential is
valid (present and not stale), its generation, the lock holder, and the
number of `_login` executions. -/
structure Sys where
  tasks : List TaskSt
  fresh : Bool
  gen : Nat
  lockBy : Option Nat
  logins : Nat
  deriving Repr, DecidableEq

/-- The interleaving semantics: any task may take its next atomic step. -/
inductive EnsureStep : Sys → Sys → Prop where
  | fastFresh (s : Sys) (i : Nat) (t : TaskSt) :
      s.tasks[i]? = some t → t.pc = .start → s.fresh = true →
      EnsureStep s { s with tasks := s.tasks.set i ⟨.done, some s.gen⟩ }
  | fastStale (s : Sys) (i : Nat) (t : TaskSt) :
      s.tasks[i]? = some t → t.pc = .start → s.fresh = false →
      EnsureStep s { s with tasks := s.tasks.set i ⟨.acquiring, t.result⟩ }
  | acquireFresh (s : Sys) (i : Nat) (t : TaskSt) :
      s.tasks[i]? = some t → t.pc = .acquiring → s.lockBy = none → s.fresh = true →
      EnsureStep s { s with tasks := s.tasks.set i ⟨.done, some s.gen⟩ }
  | acquireStale (s : Sys) (i : Nat) (t : TaskSt) :
      s.tasks[i]? = some t → t.pc = .acquiring → s.lockBy = none → s.fresh = false →
      EnsureStep s { s with tasks := s.tasks.set i ⟨.loggingIn, t.result⟩, lockBy := some i }
  | finishLogin (s : Sys) (i : Nat) (t : TaskSt) :
      s.tasks[i]? = some t → t.pc = .loggingIn → s.lockBy = some i →
      EnsureStep s
        { tasks := s.tasks.set i ⟨.done, some (s.gen + 1)⟩,
          fresh := true, gen := s.gen + 1, lockBy := none, logins := s.logins + 1 }

/-- Reachability under the interleaving semantics. -/
def EnsureReach : Sys → Sys → Prop :=
  Relation.ReflTransGen EnsureStep

/-- The initial burst state: `n` tasks about to run `_ensure_token` while
the held credential is stale (absent or past the refresh boundary). -/
def ensureInit (n : Nat) : Sys :=
  ⟨List.replicate n ⟨.start, none⟩, false, 0, none, 0⟩

/-- All tasks of the burst have returned. -/
def AllDone (s : Sys) : Prop :=
  ∀ t ∈ s.tasks, t.pc = Pc.done

/-- The inductive invariant of the burst model: the generation counter
matches the number of logins, at most one login ever runs, the credential
is valid exactly when that login has run, a task is inside `_login` exactly
when it holds the lock, a finished task returned the credential of
generation 1 after the login ran, and a login only runs against a stale
credential. -/
structure EnsureInv (s : Sys) : Prop where
  gen_eq : s.gen = s.logins
  logins_le : s.logins ≤ 1
  fresh_iff : s.fresh = true ↔ s.logins = 1
  lock_iff : ∀ (i : Nat) (t : TaskSt), s.tasks[i]? = some t →
    (t.pc = Pc.loggingIn ↔ s.lockBy = some i)
  done_ok : ∀ (i : Nat) (t : TaskSt), s.tasks[i]? = some t → t.pc = Pc.done →
    t.result = some 1 ∧ s.logins = 1
  logging_stale : ∀ (i : Nat) (t : TaskSt), s.tasks[i]? = some t →
    t.pc = Pc.loggingIn → s.fresh = false

/-! ## Theorems -/

theorem takeEveryAux_length (s : Nat) (hs : 1 ≤ s) :
    ∀ (l : List α) (k : Nat),
      (takeEveryAux s l k).length = (l.length - k + s - 1) / s := by
  intro l
  induction l with
  | nil =>
    intro k
    have e1 : takeEveryAux s ([] : List α) k = [] := rfl
    rw [e1]
    have h1 : ([] : List α).length - k + s - 1 < s := by
      simp only [List.length_nil]; omega
    rw [Nat.div_eq_of_lt h1, List.length_nil]
  | cons a rest ih =>
    intro k
    cases k with
    | zero =>
      have e1 : takeEveryAux s (a :: rest) 0 = a :: takeEveryAux s rest (s - 1) := rfl
      rw [e1, List.length_cons, ih]
      have h2 : (a :: rest).length - 0 + s - 1 = rest.length + s := by
        simp only [List.length_cons]; omega
      rw [h2, Nat.add_div_right _ (by omega : 0 < s)]
      rcases Nat.lt_or_ge rest.length (s - 1) with h | h
      · have h1 : rest.length - (s - 1) + s - 1 = s - 1 := by omega
        rw [h1, Nat.div_eq_of_lt (by omega : s - 1 < s),
          Nat.div_eq_of_lt (by omega : rest.length < s)]
      · have h1 : rest.length - (s - 1) + s - 1 = rest.length := by omega
        rw [h1]
    | succ k =>
      have e2 : takeEveryAux s (a :: rest) (k + 1) = takeEveryAux s rest k := rfl
      rw [e2, ih]
      have h1 : (a :: rest).length - (k + 1) + s - 1 = rest.length - k + s - 1 := by
        simp only [List.length_cons]; omega
      rw [h1]

theorem takeEveryAux_getElem? (s : Nat) (hs : 1 ≤ s) :
    ∀ (l : List α) (k i : Nat),
      (takeEveryAux s l k)[i]? = l[k + s * i]? := by
  intro l
  induction l with
  | nil => intro k i; simp [takeEveryAux]
  | cons a rest ih =>
    intro k i
    cases k with
    | zero =>
      cases i with
      | zero => simp [takeEveryAux]
      | succ i =>
        simp only [takeEveryAux]
        rw [List.getElem?_cons_succ, ih]
        have h1 : 0 + s * (i + 1) = (s - 1 + s * i) + 1 := by
          obtain ⟨t, rfl⟩ : ∃ t, s = t + 1 := ⟨s - 1, by omega⟩
          ring_nf
          omega
        rw [h1, List.getElem?_cons_succ]
    | succ k =>
      simp only [takeEveryAux]
      rw [ih]
      have h1 : k + 1 + s * i = (k + s * i) + 1 := by omega
      rw [h1, List.getElem?_cons_succ]

theorem takeEvery_one (l : List α) : takeEvery 1 l = l := by
  unfold takeEvery
  induction l with
  | nil => simp [takeEveryAux]
  | cons a rest ih => simpa [takeEveryAux] using ih

/-- Claim C2, as stated, is false at the boundary: with a held token whose
age is exactly `ttl_seconds - 300` (state `⟨some "tok", 0, 3600⟩` read at
`now = 3300`), the age is at the boundary, yet `_ensure_token` returns the
cached token and performs no login, because the fast path tests
`age <= ttl - margin` inclusively. -/
theorem ensure_boundary_returns_cached :
    ((3300 : ℚ) - (⟨some "tok", 0, 3600⟩ : NVRState).tokenTime ≥
        (⟨some "tok", 0, 3600⟩ : NVRState).tokenTtl - TOKEN_REFRESH_MARGIN) ∧
      ensureTriggersLogin ⟨some "tok", 0, 3600⟩ 3300 = false ∧
      ensureToken ⟨some "tok", 0, 3600⟩ 3300 "new" 3600 =
        (false, some "tok", ⟨some "tok", 0, 3600⟩) := by
  refine ⟨by norm_num [TOKEN_REFRESH_MARGIN], ?_, ?_⟩
  · simp [ensureTriggersLogin, fastPathReturns, TOKEN_REFRESH_MARGIN]
    norm_num
  · simp [ensureToken, fastPathReturns, TOKEN_REFRESH_MARGIN]
    norm_num

/-- Claim C2 (amended): a held credential with age at or below
`ttl_seconds - 300` is returned without triggering a login; one with age
strictly greater than that boundary always triggers a refresh. -/
theorem ensure_refresh_boundary (s : NVRState) (now : ℚ) (tok : String)
    (h : s.token = some tok) (ft : String) (fttl : ℚ) :
    (now - s.tokenTime ≤ s.tokenTtl - TOKEN_REFRESH_MARGIN →
      ensureTriggersLogin s now = false ∧
      ensureToken s now ft fttl = (false, some tok, s)) ∧
    (now - s.tokenTime > s.tokenTtl - TOKEN_REFRESH_MARGIN →
      ensureTriggersLogin s now = true ∧
      ensureToken s now ft fttl = (true, some ft, ⟨some ft, now, fttl⟩)) := by
  constructor
  · intro hle
    have hf : fastPathReturns s now = true := by
      simp [fastPathReturns, h, hle]
    constructor
    · simp [ensureTriggersLogin, hf]
    · simp [ensureToken, hf, h]
  · intro hgt
    have hf : fastPathReturns s now = false := by
      simp only [fastPathReturns, h, decide_eq_false_iff_not, not_le]
      exact hgt
    constructor
    · simp [ensureTriggersLogin, hf, h, hgt]
    · simp [ensureToken, hf, h, hgt]

/-- Witness for `ensure_refresh_boundary` at a concrete stale state. -/
theorem ensure_refresh_boundary_instance :
    ensureTriggersLogin ⟨some "tok", 0, 3600⟩ 3400 = true ∧
    ensureToken ⟨some "tok", 0, 3600⟩ 3400 "new" 3600 =
      (true, some "new", ⟨some "new", 3400, 3600⟩) :=
  (ensure_refresh_boundary ⟨some "tok", 0, 3600⟩ 3400 "tok" rfl "new" 3600).2
    (by norm_num [TOKEN_REFRESH_MARGIN])

/-- Claim C8: for every sorted frame list and stride `S ≥ 1`, the stitch
selection `frames[::S]` has exactly `ceil(F/S) = (F + S - 1) / S` elements,
namely the elements at indices `0, S, 2S, ...`, and with `S = 1` it is the
whole list. -/
theorem stride_selection_spec (s : Nat) (hs : 1 ≤ s) (l : List String) :
    (takeEvery s l).length = (l.length + s - 1) / s ∧
    (∀ i : Nat, (takeEvery s l)[i]? = l[s * i]?) ∧
    takeEvery 1 l = l := by
  refine ⟨?_, ?_, takeEvery_one l⟩
  · have h := takeEveryAux_length s hs l 0
    simpa [takeEvery] using h
  · intro i
    have h := takeEveryAux_getElem? s hs l 0 i
    simpa [takeEvery] using h

/-- Witness for `stride_selection_spec` with seven frames and stride 3. -/
theorem stride_selection_spec_instance :
    (takeEvery 3 ["a", "b", "c", "d", "e", "f", "g"]).length = 3 ∧
    (takeEvery 3 ["a", "b", "c", "d", "e", "f", "g"])[1]? = some "d" ∧
    takeEvery 1 ["a", "b", "c", "d", "e", "f", "g"] =
      ["a", "b", "c", "d", "e", "f", "g"] := by
  have h := stride_selection_spec 3 (by decide) ["a", "b", "c", "d", "e", "f", "g"]
  refine ⟨?_, ?_, h.2.2⟩
  · simpa using h.1
  · simpa using h.2.1 1

theorem loginRun_exhausted (a : Nat) (ha : LOGIN_RETRIES < a) (rs : List LoginResp) :
    loginRun a rs = ([], .failure) := by
  cases rs with
  | nil => rfl
  | cons r rs => simp [loginRun, ha]

theorem loginRun_replicate (k : Nat) :
    ∀ (a : Nat), 2 ≤ a → a + k ≤ LOGIN_RETRIES + 1 → ∀ rest : List LoginResp,
      loginRun a (List.replicate k (.err (some (-5))) ++ rest) =
        ((List.replicate k [LEvent.sleep LOGIN_RETRY_DELAY, LEvent.attempt]).flatten ++
            (loginRun (a + k) rest).1,
          (loginRun (a + k) rest).2) := by
  induction k with
  | zero => intro a _ _ rest; simp
  | succ k ih =>
    intro a ha hak rest
    have ha5 : ¬ (LOGIN_RETRIES < a) := by
      unfold LOGIN_RETRIES at hak ⊢; omega
    have h1a : 1 < a := by omega
    simp only [List.replicate_succ, List.cons_append, loginRun, ha5, if_false, h1a, if_true,
      List.flatten_cons, List.append_eq]
    rw [ih (a + 1) (by omega) (by omega) rest]
    have hadd : a + 1 + k = a + (k + 1) := by omega
    simp [hadd]

theorem login_replicate_run (k : Nat) (hk : k ≤ LOGIN_RETRIES) (rest : List LoginResp) :
    login (List.replicate k (.err (some (-5))) ++ rest) =
      (attemptEvents k ++ (loginRun (k + 1) rest).1, (loginRun (k + 1) rest).2) := by
  cases k with
  | zero => simp [login, attemptEvents]
  | succ k =>
    have h5 : ¬ (LOGIN_RETRIES < 1) := by decide
    have h11 : ¬ (1 < 1) := by decide
    unfold login attemptEvents
    simp only [List.replicate_succ, List.cons_append, loginRun, h5, if_false, h11,
      List.flatten_cons, List.nil_append, List.append_eq, if_true, ite_true,
      List.drop_succ_cons, List.drop_zero, Nat.lt_add_one, Nat.one_lt_two]
    rw [loginRun_replicate k 2 (by omega) (by unfold LOGIN_RETRIES at hk ⊢; omega) rest]
    have hadd : 2 + k = k + 1 + 1 := by omega
    simp [hadd]

theorem attemptEvents_one : attemptEvents 1 = [LEvent.attempt] := by
  simp [attemptEvents]

theorem flatten_replicate_rot (m : Nat) (x : List LEvent) :
    x ++ (List.replicate m x).flatten = (List.replicate m x).flatten ++ x := by
  rw [← List.flatten_cons, ← List.replicate_succ, List.replicate_succ', List.flatten_append]
  simp

theorem attemptEvents_succ_succ (m : Nat) :
    attemptEvents (m + 2) =
      attemptEvents (m + 1) ++ [LEvent.sleep LOGIN_RETRY_DELAY, LEvent.attempt] := by
  unfold attemptEvents
  simp only [List.replicate_succ, List.flatten_cons, List.cons_append, List.drop_succ_cons,
    List.drop_zero, List.nil_append]
  congr 1
  exact flatten_replicate_rot m [LEvent.sleep LOGIN_RETRY_DELAY, LEvent.attempt]

theorem attemptEvents_step (k : Nat) :
    attemptEvents k ++
        ((if 1 < k + 1 then [LEvent.sleep LOGIN_RETRY_DELAY] else []) ++ [LEvent.attempt]) =
      attemptEvents (k + 1) := by
  cases k with
  | zero => simp [attemptEvents_one, attemptEvents]
  | succ m =>
    have h : 1 < m + 1 + 1 := by omega
    rw [if_pos h, attemptEvents_succ_succ m]
    simp

/-- Claim C3: the login sequence retries only on the session-slot-limit
code `-5`, sleeping the fixed 30s backoff before each retry, up to 5
attempts.  After `k` slot-limit refusals (`k + 1 ≤ 5`): a reply carrying
any other error code ends the run right there with the fatal error — the
run made exactly `k + 1` attempts with `k` backoffs and no retry after the
offending reply; five slot-limit refusals exhaust the attempts and raise
(5 attempts, 4 backoffs); a success ends the run normally. -/
theorem login_retry_policy (k : Nat) (c : Option Int) (hc : c ≠ some (-5))
    (hk : k + 1 ≤ LOGIN_RETRIES) (lease : Int) (rest rest2 rest3 : List LoginResp) :
    login (List.replicate k (.err (some (-5))) ++ .err c :: rest) =
      (attemptEvents (k + 1), LoginResult.failure) ∧
    login (List.replicate LOGIN_RETRIES (.err (some (-5))) ++ rest2) =
      (attemptEvents LOGIN_RETRIES, LoginResult.failure) ∧
    login (List.replicate k (.err (some (-5))) ++ .ok lease :: rest3) =
      (attemptEvents (k + 1), LoginResult.success lease) := by
  have hn : ¬ (LOGIN_RETRIES < k + 1) := by omega
  refine ⟨?_, ?_, ?_⟩
  · rw [login_replicate_run k (by omega) (.err c :: rest)]
    simp only [loginRun, hn, if_false, hc, if_neg hc]
    rw [← attemptEvents_step k]
  · rw [login_replicate_run LOGIN_RETRIES le_rfl rest2,
      loginRun_exhausted (LOGIN_RETRIES + 1) (by omega) rest2]
    simp
  · rw [login_replicate_run k (by omega) (.ok lease :: rest3)]
    simp only [loginRun, hn, if_false]
    rw [← attemptEvents_step k]

/-- Witness for `login_retry_policy`: two slot-limit refusals, then a
different error code — three attempts, two 30s backoffs, fatal failure;
five refusals — five attempts, four backoffs; and a success on the third
attempt. -/
theorem login_retry_policy_instance :
    login [.err (some (-5)), .err (some (-5)), .err (some (-1))] =
      ([.attempt, .sleep 30, .attempt, .sleep 30, .attempt], .failure) ∧
    login [.err (some (-5)), .err (some (-5)), .err (some (-5)), .err (some (-5)),
        .err (some (-5))] =
      ([.attempt, .sleep 30, .attempt, .sleep 30, .attempt, .sleep 30, .attempt,
          .sleep 30, .attempt], .failure) ∧
    login [.err (some (-5)), .err (some (-5)), .ok 3600] =
      ([.attempt, .sleep 30, .attempt, .sleep 30, .attempt], .success 3600) := by
  have h := login_retry_policy 2 (some (-1)) (by decide) (by decide) 3600 [] [] []
  obtain ⟨h1, h2, h3⟩ := h
  refine ⟨?_, ?_, ?_⟩
  · simpa [attemptEvents, LOGIN_RETRY_DELAY] using h1
  · simpa [attemptEvents, LOGIN_RETRY_DELAY, LOGIN_RETRIES] using h2
  · simpa [attemptEvents, LOGIN_RETRY_DELAY] using h3

/-- Claim C4, as stated, is false on the code: invalidating by
`self._token_time = 0.0` only forces a re-login when the monotonic clock
reading exceeds `ttl - 300`.  Concretely, after a `-6` reply zeroes the
issue time of the state `⟨some "tok", 100, 3600⟩`, the next
`_ensure_token` call at the reading `now = 200` — reachable on a host
whose monotonic clock started less than `3300` seconds ago — computes
`age = 200 ≤ 3300` on the fast path and returns the device-side-dead
token without any re-login. -/
theorem invalidation_fails_at_small_clock :
    (captureSnapshot ⟨some "tok", 100, 3600⟩
        ⟨false, [], some (-6, "please login first"), "body"⟩).2 =
      ⟨some "tok", 0, 3600⟩ ∧
    ensureTriggersLogin
      (captureSnapshot ⟨some "tok", 100, 3600⟩
        ⟨false, [], some (-6, "please login first"), "body"⟩).2 200 = false ∧
    ensureToken
      (captureSnapshot ⟨some "tok", 100, 3600⟩
        ⟨false, [], some (-6, "please login first"), "body"⟩).2 200 "new" 3600 =
      (false, some "tok", ⟨some "tok", 0, 3600⟩) := by
  have h2 : (captureSnapshot ⟨some "tok", 100, 3600⟩
      ⟨false, [], some (-6, "please login first"), "body"⟩).2 = ⟨some "tok", 0, 3600⟩ := by
    simp [captureSnapshot, snapCode]
  refine ⟨h2, ?_, ?_⟩ <;> rw [h2]
  · simp [ensureTriggersLogin, fastPathReturns, TOKEN_REFRESH_MARGIN]
    norm_num
  · simp [ensureToken, fastPathReturns, TOKEN_REFRESH_MARGIN]
    norm_num

/-- Claim C4 (amended): on a non-image `Snap` reply, when the parsed
device code is the auth-failure code `-6` the held credential's issue time
is zeroed, so the next `_ensure_token` call re-authenticates whenever its
monotonic clock reading exceeds `ttl - 300` (at smaller readings the stale
token is still returned); for every other device code the token state is
left completely intact; and in every non-image case the raised error
carries the parsed device code and detail text. -/
theorem capture_snapshot_error_paths (s : NVRState) (resp : SnapHttpResp)
    (h : resp.contentTypeIsImage = false) :
    (captureSnapshot s resp).1 = Except.error ⟨snapCode resp, snapDetail resp⟩ ∧
    (snapCode resp = some (-6) →
      (captureSnapshot s resp).2 = { s with tokenTime := 0 } ∧
      ∀ now : ℚ, s.tokenTtl - TOKEN_REFRESH_MARGIN < now →
        ensureTriggersLogin (captureSnapshot s resp).2 now = true) ∧
    (snapCode resp ≠ some (-6) → (captureSnapshot s resp).2 = s) := by
  refine ⟨?_, ?_, ?_⟩
  · simp [captureSnapshot, h]
  · intro h6
    constructor
    · simp [captureSnapshot, h, h6]
    · intro now hnow
      have h2 : (captureSnapshot s resp).2 = { s with tokenTime := 0 } := by
        simp [captureSnapshot, h, h6]
      rw [h2]
      cases ht : s.token with
      | none => simp [ensureTriggersLogin, fastPathReturns, ht]
      | some tok =>
        have hf : fastPathReturns ⟨some tok, 0, s.tokenTtl⟩ now = false := by
          simp only [fastPathReturns, decide_eq_false_iff_not, not_le]
          simpa using hnow
        simp [ensureTriggersLogin, hf]
        simpa using hnow
  · intro h6
    simp [captureSnapshot, h, h6]

/-- Witness for `capture_snapshot_error_paths`: a `-6` auth-failure reply
invalidates the held token and the next call at `now = 3400` re-logs-in; a
`-12` transient reply leaves the state intact; both raise with the device
code and detail. -/
theorem capture_snapshot_error_paths_instance :
    (captureSnapshot ⟨some "tok", 100, 3600⟩ ⟨false, [], some (-6, "please login first"), "body"⟩).1 =
      Except.error ⟨some (-6), "please login first"⟩ ∧
    (captureSnapshot ⟨some "tok", 100, 3600⟩ ⟨false, [], some (-6, "please login first"), "body"⟩).2 =
      ⟨some "tok", 0, 3600⟩ ∧
    ensureTriggersLogin
      (captureSnapshot ⟨some "tok", 100, 3600⟩
        ⟨false, [], some (-6, "please login first"), "body"⟩).2 3400 = true ∧
    (captureSnapshot ⟨some "tok", 100, 3600⟩ ⟨false, [], some (-12, "get config failed"), "body"⟩).2 =
      ⟨some "tok", 100, 3600⟩ := by
  have h6 := capture_snapshot_error_paths ⟨some "tok", 100, 3600⟩
    ⟨false, [], some (-6, "please login first"), "body"⟩ rfl
  have h12 := capture_snapshot_error_paths ⟨some "tok", 100, 3600⟩
    ⟨false, [], some (-12, "get config failed"), "body"⟩ rfl
  have hc6 : snapCode ⟨false, [], some (-6, "please login first"), "body"⟩ = some (-6) := rfl
  have hc12 : snapCode ⟨false, [], some (-12, "get config failed"), "body"⟩ ≠ some (-6) := by
    decide
  refine ⟨?_, ?_, ?_, h12.2.2 hc12⟩
  · simpa [snapCode, snapDetail] using h6.1
  · exact (h6.2.1 hc6).1
  · exact (h6.2.1 hc6).2 3400 (by norm_num [TOKEN_REFRESH_MARGIN])

theorem chanStep_events_eq (τ : Nat) (o : Option Nat) (ch : Nat) (st : CapState) :
    (chanStep τ o ch st).events =
      (capOne o ch st).1.events ++
        (if stopSet τ (capOne o ch st).1.events.length then [] else [CEvent.pause]) := by
  cases o with
  | none =>
    simp only [chanStep, capOne]
    by_cases hstop : stopSet τ (st.events.length + 2) = true <;>
      simp_all [List.length_append]
  | some n =>
    simp only [chanStep, capOne]
    by_cases hn : n ≠ 0 <;> by_cases hstop : stopSet τ (st.events.length + 2) = true <;>
      simp_all [List.length_append]

theorem chanStep_events_prefix (τ : Nat) (o : Option Nat) (ch : Nat) (st : CapState) :
    ∃ l, (chanStep τ o ch st).events = st.events ++ l := by
  rw [chanStep_events_eq]
  obtain ⟨m, hm⟩ : ∃ m, (capOne o ch st).1.events = st.events ++ m := by
    cases o <;> exact ⟨_, rfl⟩
  rw [hm, List.append_assoc]
  exact ⟨_, rfl⟩

theorem snap_mem_chanStep (τ : Nat) (o : Option Nat) (ch : Nat) (st : CapState) :
    CEvent.snap ch ∈ (chanStep τ o ch st).events := by
  rw [chanStep_events_eq]
  cases o <;> simp [capOne]

theorem chanStep_counts_none (τ ch : Nat) (st : CapState) :
    (chanStep τ none ch st).counts = st.counts ∧
      (chanStep τ none ch st).totals = st.totals := by
  simp only [chanStep, capOne]
  by_cases hstop : stopSet τ (st.events.length + 2) = true <;>
    simp_all [List.length_append]

theorem chanStep_counts_zero (τ ch : Nat) (st : CapState) :
    (chanStep τ (some 0) ch st).counts = st.counts ∧
      (chanStep τ (some 0) ch st).totals = st.totals := by
  simp only [chanStep, capOne]
  by_cases hstop : stopSet τ (st.events.length + 2) = true <;>
    simp_all [List.length_append]

theorem warn_mem_chanStep (τ ch : Nat) (st : CapState) :
    CEvent.warn ch ∈ (chanStep τ none ch st).events := by
  rw [chanStep_events_eq]
  simp [capOne]

theorem runChannels_events_prefix (τ : Nat) (o : Nat → Option Nat) (chans : List Nat) :
    ∀ st : CapState, ∃ l, (runChannels τ o chans st).events = st.events ++ l := by
  induction chans with
  | nil => intro st; exact ⟨[], by simp [runChannels]⟩
  | cons c rest ih =>
    intro st
    obtain ⟨l1, h1⟩ := ih (chanStep τ (o c) c st)
    obtain ⟨l0, h0⟩ := chanStep_events_prefix τ (o c) c st
    refine ⟨l0 ++ l1, ?_⟩
    rw [show runChannels τ o (c :: rest) st = runChannels τ o rest (chanStep τ (o c) c st)
      from rfl, h1, h0, List.append_assoc]

theorem snap_mem_runChannels (τ : Nat) (o : Nat → Option Nat) (chans : List Nat) :
    ∀ (st : CapState) (ch : Nat), ch ∈ chans →
      CEvent.snap ch ∈ (runChannels τ o chans st).events := by
  induction chans with
  | nil => simp
  | cons c rest ih =>
    intro st ch hch
    rw [show runChannels τ o (c :: rest) st = runChannels τ o rest (chanStep τ (o c) c st)
      from rfl]
    rcases List.mem_cons.mp hch with rfl | hm
    · obtain ⟨l, hl⟩ := runChannels_events_prefix τ o rest (chanStep τ (o ch) ch st)
      rw [hl]
      exact List.mem_append_left _ (snap_mem_chanStep τ (o ch) ch st)
    · exact ih (chanStep τ (o c) c st) ch hm

/-- Claim C5, as stated, is false on the code: with two channels, every
capture succeeding with 5 bytes and the stop request arriving at model
time 1 (mid-pass, before channel 1's boundary), the pass still captures
channel 1 — the inner `for` loop never consults the stop event to cut the
pass short; only the inter-channel pause is skipped, and the loop exits at
the next `while` check after the pass. -/
theorem stop_midpass_still_captures :
    (runLoop 1 (fun _ _ => some 5) [0, 1] 2 0 capInit).events =
      [CEvent.snap 0, CEvent.write 0 5, CEvent.snap 1, CEvent.write 1 5,
        CEvent.passLog, CEvent.interWait] ∧
    stopSet 1 2 = true ∧
    CEvent.snap 1 ∈ (runLoop 1 (fun _ _ => some 5) [0, 1] 2 0 capInit).events ∧
    CEvent.pause ∉ (runLoop 1 (fun _ _ => some 5) [0, 1] 2 0 capInit).events := by
  refine ⟨?_, rfl, ?_, ?_⟩ <;>
    simp [runLoop, runChannels, chanStep, capOne, capInit, stopSet]

/-- Claim C5 (amended): when the stop signal is set during a capture pass,
the inter-channel pause is skipped (the channel step emits exactly its
capture events and nothing more), but every remaining channel of the pass
is still attempted; the loop exits only at the next pass boundary, where
an already-set stop signal stops it immediately (the inter-pass wait is
not extended). -/
theorem stop_midpass_behavior (τ : Nat) (out : Nat → Nat → Option Nat)
    (o : Nat → Option Nat) (chans : List Nat) :
    (∀ (fuel p : Nat) (st : CapState), stopSet τ st.events.length = true →
        runLoop τ out chans fuel p st = st) ∧
    (∀ (st : CapState) (ch : Nat), ch ∈ chans →
        CEvent.snap ch ∈ (runChannels τ o chans st).events) ∧
    (∀ (st : CapState) (ch : Nat), stopSet τ st.events.length = true →
        (chanStep τ (o ch) ch st).events = (capOne (o ch) ch st).1.events) := by
  refine ⟨?_, snap_mem_runChannels τ o chans, ?_⟩
  · intro fuel p st h
    cases fuel with
    | zero => rfl
    | succ fuel => simp [runLoop, h]
  · intro st ch h
    have hlen : st.events.length ≤ (capOne (o ch) ch st).1.events.length := by
      cases hoc : o ch <;> simp [capOne]
    have h2 : stopSet τ (capOne (o ch) ch st).1.events.length = true := by
      simp only [stopSet, decide_eq_true_eq] at h ⊢
      omega
    rw [chanStep_events_eq, h2]
    simp

/-- Witness for `stop_midpass_behavior` with the stop signal set from the
start (`τ = 0`). -/
theorem stop_midpass_behavior_instance :
    runLoop 0 (fun _ _ => some 5) [0, 1] 3 0 capInit = capInit ∧
    CEvent.snap 1 ∈ (runChannels 0 (fun _ => some 5) [0, 1] capInit).events ∧
    (chanStep 0 (some 5) 1 capInit).events = (capOne (some 5) 1 capInit).1.events := by
  have h := stop_midpass_behavior 0 (fun _ _ => some 5) (fun _ => some 5) [0, 1]
  exact ⟨h.1 3 0 capInit (by decide), h.2.1 capInit 1 (by decide),
    h.2.2 capInit 1 (by decide)⟩

/-- Claim C6: in every pass, a failed channel capture is logged (a warning
event), leaves that channel's frame count and byte total unchanged, and
every channel of the pass — in particular every channel after a failed one
— still gets its capture attempted.  The per-channel step is a total
function (`_capture_one` catches every exception), so no exception
propagates out of the loop. -/
theorem pass_failure_isolation (τ : Nat) (o : Nat → Option Nat) (chans : List Nat) :
    (∀ (st : CapState) (ch : Nat), ch ∈ chans →
        CEvent.snap ch ∈ (runChannels τ o chans st).events) ∧
    (∀ (st : CapState) (ch : Nat), o ch = none →
        (chanStep τ (o ch) ch st).counts = st.counts ∧
        (chanStep τ (o ch) ch st).totals = st.totals ∧
        CEvent.warn ch ∈ (chanStep τ (o ch) ch st).events) := by
  refine ⟨snap_mem_runChannels τ o chans, ?_⟩
  intro st ch hch
  rw [hch]
  exact ⟨(chanStep_counts_none τ ch st).1, (chanStep_counts_none τ ch st).2,
    warn_mem_chanStep τ ch st⟩

/-- Witness for `pass_failure_isolation`: channel 0 fails, channel 1 is
still captured, and channel 0's counters stay at zero. -/
theorem pass_failure_isolation_instance :
    CEvent.snap 1 ∈
      (runChannels 0 (fun ch => if ch = 0 then none else some 7) [0, 1] capInit).events ∧
    (chanStep 0 ((fun ch => if ch = 0 then none else some 7) 0) 0 capInit).counts =
      capInit.counts ∧
    CEvent.warn 0 ∈
      (chanStep 0 ((fun ch => if ch = 0 then none else some 7) 0) 0 capInit).events := by
  have h := pass_failure_isolation 0 (fun ch => if ch = 0 then none else some 7) [0, 1]
  exact ⟨h.1 capInit 1 (by decide), (h.2 capInit 0 (by decide)).1,
    (h.2 capInit 0 (by decide)).2.2⟩

/-- Claim C10: a snapshot that succeeds with an empty body still writes a
zero-byte frame file, yet increments neither the channel's frame count nor
its byte total — for the telemetry counters it is indistinguishable from a
failed capture, because the loop guards the update with the truthiness of
the returned byte count. -/
theorem zero_byte_snapshot_counters (τ ch : Nat) (st : CapState) :
    CEvent.write ch 0 ∈ (chanStep τ (some 0) ch st).events ∧
    (chanStep τ (some 0) ch st).counts = st.counts ∧
    (chanStep τ (some 0) ch st).totals = st.totals ∧
    (chanStep τ (some 0) ch st).counts = (chanStep τ none ch st).counts ∧
    (chanStep τ (some 0) ch st).totals = (chanStep τ none ch st).totals := by
  refine ⟨?_, (chanStep_counts_zero τ ch st).1, (chanStep_counts_zero τ ch st).2, ?_, ?_⟩
  · rw [chanStep_events_eq]
    simp [capOne]
  · rw [(chanStep_counts_zero τ ch st).1, (chanStep_counts_none τ ch st).1]
  · rw [(chanStep_counts_zero τ ch st).2, (chanStep_counts_none τ ch st).2]

theorem concat_body_length (sel : List String) (d : ℚ) :
    (sel.flatMap fun f => [CLine.file f, CLine.dur d]).length = 2 * sel.length := by
  induction sel with
  | nil => rfl
  | cons a rest ih =>
    simp only [List.flatMap_cons, List.length_append, List.length_cons, ih, List.length_nil]
    omega

theorem concat_body_getElem (sel : List String) (d : ℚ) :
    ∀ i : Nat,
      (sel.flatMap fun f => [CLine.file f, CLine.dur d])[2 * i]? =
        (sel[i]?).map CLine.file ∧
      (sel.flatMap fun f => [CLine.file f, CLine.dur d])[2 * i + 1]? =
        (if i < sel.length then some (CLine.dur d) else none) := by
  induction sel with
  | nil => intro i; simp
  | cons a rest ih =>
    intro i
    cases i with
    | zero => simp
    | succ i =>
      have h1 : 2 * (i + 1) = 2 * i + 1 + 1 := by omega
      have h2 : 2 * (i + 1) + 1 = (2 * i + 1 + 1) + 1 := by omega
      simp only [List.flatMap_cons, List.cons_append, List.nil_append, h1, h2,
        List.getElem?_cons_succ, List.length_cons]
      refine ⟨(ih i).1, ?_⟩
      rw [(ih i).2]
      simp only [Nat.add_lt_add_iff_right]

/-- Claim C9: for a non-empty frame selection, the concat instruction list
holds each selected frame in order, each immediately followed by a duration
entry of `1/output_fps`, and the final selected frame appears once more as
the very last entry, without a duration — so the last frame occurs twice. -/
theorem concat_instructions_spec (sel : List String) (fps : ℚ) (h : sel ≠ []) :
    (concatLines sel (1 / fps)).length = 2 * sel.length + 1 ∧
    (∀ i : Nat, i < sel.length →
      (concatLines sel (1 / fps))[2 * i]? = (sel[i]?).map CLine.file ∧
      (concatLines sel (1 / fps))[2 * i + 1]? = some (CLine.dur (1 / fps))) ∧
    (concatLines sel (1 / fps)).getLast? = (sel.getLast?).map CLine.file := by
  obtain ⟨last, hlast⟩ : ∃ last, sel.getLast? = some last :=
    ⟨sel.getLast h, List.getLast?_eq_getLast sel h⟩
  have hc : concatLines sel (1 / fps) =
      (sel.flatMap fun f => [CLine.file f, CLine.dur (1 / fps)]) ++ [CLine.file last] := by
    unfold concatLines
    rw [hlast]
  refine ⟨?_, ?_, ?_⟩
  · rw [hc, List.length_append, concat_body_length]
    rfl
  · intro i hi
    have hb := concat_body_getElem sel (1 / fps) i
    have hl1 : 2 * i < (sel.flatMap fun f => [CLine.file f, CLine.dur (1 / fps)]).length := by
      rw [concat_body_length]; omega
    have hl2 : 2 * i + 1 <
        (sel.flatMap fun f => [CLine.file f, CLine.dur (1 / fps)]).length := by
      rw [concat_body_length]; omega
    rw [hc, List.getElem?_append, List.getElem?_append, if_pos hl1, if_pos hl2]
    exact ⟨hb.1, by rw [hb.2, if_pos hi]⟩
  · rw [hc, List.getLast?_concat, hlast]
    rfl

/-- Witness for `concat_instructions_spec` with two frames at 24 fps. -/
theorem concat_instructions_spec_instance :
    (concatLines ["f1", "f2"] (1 / 24)).length = 5 ∧
    (concatLines ["f1", "f2"] (1 / 24))[2]? = some (CLine.file "f2") ∧
    (concatLines ["f1", "f2"] (1 / 24))[3]? = some (CLine.dur (1 / 24)) ∧
    (concatLines ["f1", "f2"] (1 / 24)).getLast? = some (CLine.file "f2") := by
  have h := concat_instructions_spec ["f1", "f2"] 24 (by decide)
  refine ⟨by simpa using h.1, ?_, ?_, by simpa using h.2.2⟩
  · have h2 := (h.2.1 1 (by decide)).1
    simpa using h2
  · have h2 := (h.2.1 1 (by decide)).2
    simpa using h2

/-- Claim C7, as stated, is false on the code: with channel A's encoder
exiting 1 and channel B's exiting 0, `run_stitch` ends at channel A — the
`RuntimeError` raised by `_encode_channel` propagates through the loop,
which has no exception handler, so channel B is never invoked and no
channel produces videos. -/
theorem encoder_failure_aborts_rest :
    runStitch [⟨"chA", ["a1"], 1⟩, ⟨"chB", ["b1"], 0⟩] 1 24 =
      ([SEvent.invoke "chA" [CLine.file "a1", CLine.dur (1 / 24), CLine.file "a1"],
        SEvent.errorLogged "chA", SEvent.cleanup "chA"], some "chA") ∧
    SEvent.produced "chB" ∉ (runStitch [⟨"chA", ["a1"], 1⟩, ⟨"chB", ["b1"], 0⟩] 1 24).1 ∧
    SEvent.invoke "chB" (concatLines (takeEvery 1 ["b1"]) (1 / 24)) ∉
      (runStitch [⟨"chA", ["a1"], 1⟩, ⟨"chB", ["b1"], 0⟩] 1 24).1 := by
  have h1 : runStitch [⟨"chA", ["a1"], 1⟩, ⟨"chB", ["b1"], 0⟩] 1 24 =
      ([SEvent.invoke "chA" [CLine.file "a1", CLine.dur (1 / 24), CLine.file "a1"],
        SEvent.errorLogged "chA", SEvent.cleanup "chA"], some "chA") := by
    simp [runStitch, encodeChannel, takeEvery, takeEveryAux, concatLines, List.getLast?]
  refine ⟨h1, ?_, ?_⟩ <;> rw [h1] <;> decide

/-- Claim C7 (amended): a nonzero encoder exit is fatal for the whole
stitch run, not only for its channel: the error is logged, that channel's
videos are not produced and its temporary concat file is cleaned up, but
the raised error propagates out of `run_stitch`, so the remaining channel
directories are not processed and no channel produces videos. -/
theorem encoder_failure_propagates (j : ChannelJob) (rest : List ChannelJob)
    (everyN : Nat) (fps : ℚ) (hf : j.frames ≠ []) (he : j.exitCode ≠ 0) :
    runStitch (j :: rest) everyN fps =
      ([SEvent.invoke j.name (concatLines (takeEvery everyN j.frames) (1 / fps)),
        SEvent.errorLogged j.name, SEvent.cleanup j.name], some j.name) ∧
    ∀ nm : String, SEvent.produced nm ∉ (runStitch (j :: rest) everyN fps).1 := by
  have he1 : runStitch (j :: rest) everyN fps =
      ([SEvent.invoke j.name (concatLines (takeEvery everyN j.frames) (1 / fps)),
        SEvent.errorLogged j.name, SEvent.cleanup j.name], some j.name) := by
    unfold runStitch encodeChannel
    simp [hf, he]
  refine ⟨he1, ?_⟩
  intro nm
  rw [he1]
  simp

/-- Witness for `encoder_failure_propagates` at the concrete two-channel
run of the counterexample. -/
theorem encoder_failure_propagates_instance :
    runStitch [⟨"chA", ["a1"], 1⟩, ⟨"chB", ["b1"], 0⟩] 1 24 =
      ([SEvent.invoke "chA"
          (concatLines (takeEvery 1 ["a1"]) (1 / 24)),
        SEvent.errorLogged "chA", SEvent.cleanup "chA"], some "chA") ∧
    SEvent.produced "chB" ∉ (runStitch [⟨"chA", ["a1"], 1⟩, ⟨"chB", ["b1"], 0⟩] 1 24).1 := by
  have h := encoder_failure_propagates ⟨"chA", ["a1"], 1⟩ [⟨"chB", ["b1"], 0⟩] 1 24
    (by decide) (by decide)
  exact ⟨h.1, h.2 "chB"⟩

theorem ensureInv_init (n : Nat) : EnsureInv (ensureInit n) := by
  have htask : ∀ (i : Nat) (t : TaskSt), (ensureInit n).tasks[i]? = some t →
      t = ⟨Pc.start, none⟩ := by
    intro i t ht
    simp only [ensureInit, List.getElem?_replicate] at ht
    split at ht
    · exact (Option.some.inj ht).symm
    · cases ht
  refine ⟨rfl, by show (0 : Nat) ≤ 1; omega, by simp [ensureInit], ?_, ?_, ?_⟩
  · intro i t ht
    rw [htask i t ht]
    simp [ensureInit]
  · intro i t ht hd
    rw [htask i t ht] at hd
    exact Pc.noConfusion hd
  · intro i t ht hl
    rw [htask i t ht] at hl
    exact Pc.noConfusion hl

theorem ensureInv_step {s s2 : Sys} (hinv : EnsureInv s) (hstep : EnsureStep s s2) :
    EnsureInv s2 := by
  obtain ⟨hgen, hle, hfi, hlock, hdone, hstale⟩ := hinv
  cases hstep with
  | fastFresh i t hti hpc hfresh =>
    have hi : i < s.tasks.length := (List.getElem?_eq_some.mp hti).1
    have h1 : s.logins = 1 := hfi.mp hfresh
    refine ⟨hgen, hle, hfi, ?_, ?_, ?_⟩
    · intro j u hju
      by_cases hij : j = i
      · subst hij
        rw [List.getElem?_set_eq_of_lt _ hi] at hju
        have hu := Option.some.inj hju
        subst hu
        have hnl : s.lockBy ≠ some j := by
          intro hl
          have hpl := (hlock j t hti).mpr hl
          rw [hpc] at hpl
          exact Pc.noConfusion hpl
        simp [hnl]
      · rw [List.getElem?_set_ne (Ne.symm hij)] at hju
        exact hlock j u hju
    · intro j u hju hd
      by_cases hij : j = i
      · subst hij
        rw [List.getElem?_set_eq_of_lt _ hi] at hju
        have hu := Option.some.inj hju
        subst hu
        exact ⟨by rw [hgen, h1], h1⟩
      · rw [List.getElem?_set_ne (Ne.symm hij)] at hju
        exact hdone j u hju hd
    · intro j u hju hl
      by_cases hij : j = i
      · subst hij
        rw [List.getElem?_set_eq_of_lt _ hi] at hju
        have hu := Option.some.inj hju
        subst hu
        exact Pc.noConfusion hl
      · rw [List.getElem?_set_ne (Ne.symm hij)] at hju
        exact hstale j u hju hl
  | fastStale i t hti hpc hfresh =>
    have hi : i < s.tasks.length := (List.getElem?_eq_some.mp hti).1
    refine ⟨hgen, hle, hfi, ?_, ?_, ?_⟩
    · intro j u hju
      by_cases hij : j = i
      · subst hij
        rw [List.getElem?_set_eq_of_lt _ hi] at hju
        have hu := Option.some.inj hju
        subst hu
        have hnl : s.lockBy ≠ some j := by
          intro hl
          have hpl := (hlock j t hti).mpr hl
          rw [hpc] at hpl
          exact Pc.noConfusion hpl
        simp [hnl]
      · rw [List.getElem?_set_ne (Ne.symm hij)] at hju
        exact hlock j u hju
    · intro j u hju hd
      by_cases hij : j = i
      · subst hij
        rw [List.getElem?_set_eq_of_lt _ hi] at hju
        have hu := Option.some.inj hju
        subst hu
        exact Pc.noConfusion hd
      · rw [List.getElem?_set_ne (Ne.symm hij)] at hju
        exact hdone j u hju hd
    · intro j u hju hl
      exact hfresh
  | acquireFresh i t hti hpc hlk hfresh =>
    have hi : i < s.tasks.length := (List.getElem?_eq_some.mp hti).1
    have h1 : s.logins = 1 := hfi.mp hfresh
    refine ⟨hgen, hle, hfi, ?_, ?_, ?_⟩
    · intro j u hju
      by_cases hij : j = i
      · subst hij
        rw [List.getElem?_set_eq_of_lt _ hi] at hju
        have hu := Option.some.inj hju
        subst hu
        simp [hlk]
      · rw [List.getElem?_set_ne (Ne.symm hij)] at hju
        exact hlock j u hju
    · intro j u hju hd
      by_cases hij : j = i
      · subst hij
        rw [List.getElem?_set_eq_of_lt _ hi] at hju
        have hu := Option.some.inj hju
        subst hu
        exact ⟨by rw [hgen, h1], h1⟩
      · rw [List.getElem?_set_ne (Ne.symm hij)] at hju
        exact hdone j u hju hd
    · intro j u hju hl
      by_cases hij : j = i
      · subst hij
        rw [List.getElem?_set_eq_of_lt _ hi] at hju
        have hu := Option.some.inj hju
        subst hu
        exact Pc.noConfusion hl
      · rw [List.getElem?_set_ne (Ne.symm hij)] at hju
        exact hstale j u hju hl
  | acquireStale i t hti hpc hlk hfresh =>
    have hi : i < s.tasks.length := (List.getElem?_eq_some.mp hti).1
    refine ⟨hgen, hle, hfi, ?_, ?_, ?_⟩
    · intro j u hju
      by_cases hij : j = i
      · subst hij
        rw [List.getElem?_set_eq_of_lt _ hi] at hju
        have hu := Option.some.inj hju
        subst hu
        simp
      · rw [List.getElem?_set_ne (Ne.symm hij)] at hju
        refine ⟨fun hc => ?_, fun hc => absurd (Option.some.inj hc).symm hij⟩
        have hc2 := (hlock j u hju).mp hc
        rw [hlk] at hc2
        exact Option.noConfusion hc2
    · intro j u hju hd
      by_cases hij : j = i
      · subst hij
        rw [List.getElem?_set_eq_of_lt _ hi] at hju
        have hu := Option.some.inj hju
        subst hu
        exact Pc.noConfusion hd
      · rw [List.getElem?_set_ne (Ne.symm hij)] at hju
        exact hdone j u hju hd
    · intro j u hju hl
      exact hfresh
  | finishLogin i t hti hpc hlk =>
    have hi : i < s.tasks.length := (List.getElem?_eq_some.mp hti).1
    have hfr : s.fresh = false := hstale i t hti hpc
    have hne1 : s.logins ≠ 1 := by
      intro h1
      rw [hfi.mpr h1] at hfr
      exact Bool.noConfusion hfr
    have h0 : s.logins = 0 := by omega
    have hg0 : s.gen = 0 := by rw [hgen, h0]
    refine ⟨?_, ?_, ?_, ?_, ?_, ?_⟩
    · show s.gen + 1 = s.logins + 1
      rw [hgen]
    · show s.logins + 1 ≤ 1
      omega
    · show true = true ↔ s.logins + 1 = 1
      simp [h0]
    · intro j u hju
      by_cases hij : j = i
      · subst hij
        rw [List.getElem?_set_eq_of_lt _ hi] at hju
        have hu := Option.some.inj hju
        subst hu
        simp
      · rw [List.getElem?_set_ne (Ne.symm hij)] at hju
        refine ⟨fun hc => ?_, fun hc => Option.noConfusion hc⟩
        have hc2 := (hlock j u hju).mp hc
        rw [hlk] at hc2
        exact absurd (Option.some.inj hc2) (fun h => hij h.symm)
    · intro j u hju hd
      by_cases hij : j = i
      · subst hij
        rw [List.getElem?_set_eq_of_lt _ hi] at hju
        have hu := Option.some.inj hju
        subst hu
        refine ⟨by rw [hg0], ?_⟩
        show s.logins + 1 = 1
        omega
      · rw [List.getElem?_set_ne (Ne.symm hij)] at hju
        exact absurd (hdone j u hju hd).2 hne1
    · intro j u hju hl
      by_cases hij : j = i
      · subst hij
        rw [List.getElem?_set_eq_of_lt _ hi] at hju
        have hu := Option.some.inj hju
        subst hu
        exact Pc.noConfusion hl
      · rw [List.getElem?_set_ne (Ne.symm hij)] at hju
        have hc2 := (hlock j u hju).mp hl
        rw [hlk] at hc2
        exact absurd (Option.some.inj hc2) (fun h => hij h.symm)

theorem ensureInv_reach (n : Nat) {s : Sys} (h : EnsureReach (ensureInit n) s) :
    EnsureInv s := by
  induction h with
  | refl => exact ensureInv_init n
  | tail _ hstep ih => exact ensureInv_step ih hstep

theorem ensureStep_length {s s2 : Sys} (h : EnsureStep s s2) :
    s2.tasks.length = s.tasks.length := by
  cases h <;> simp

theorem ensureReach_length {s s2 : Sys} (h : EnsureReach s s2) :
    s2.tasks.length = s.tasks.length := by
  induction h with
  | refl => rfl
  | tail _ hstep ih => rw [ensureStep_length hstep, ih]

/-- Claim C1: in the cooperative-interleaving model of `n ≥ 1` concurrent
`_ensure_token` calls starting from a stale credential, every execution in
which all callers have returned performed exactly one `_login`, and every
caller received the freshly issued credential (the one of generation 1,
which is the final generation). -/
theorem ensure_token_single_login (n : Nat) (hn : 1 ≤ n) (s : Sys)
    (hr : EnsureReach (ensureInit n) s) (hd : AllDone s) :
    s.logins = 1 ∧ s.gen = 1 ∧ ∀ t ∈ s.tasks, t.result = some s.gen := by
  have hinv := ensureInv_reach n hr
  have hlen : s.tasks.length = n := by
    rw [ensureReach_length hr]
    simp [ensureInit]
  have hlt : 0 < s.tasks.length := by omega
  have ht0 : s.tasks[0]? = some (s.tasks.get ⟨0, hlt⟩) := by
    rw [List.getElem?_eq_getElem hlt]
    rfl
  have hmem0 : s.tasks.get ⟨0, hlt⟩ ∈ s.tasks := List.mem_iff_getElem?.mpr ⟨0, ht0⟩
  have h1 : s.logins = 1 :=
    (hinv.done_ok 0 (s.tasks.get ⟨0, hlt⟩) ht0 (hd _ hmem0)).2
  refine ⟨h1, by rw [hinv.gen_eq, h1], ?_⟩
  intro t ht
  obtain ⟨j, hj⟩ := List.mem_iff_getElem?.mp ht
  rw [(hinv.done_ok j t hj (hd t ht)).1, hinv.gen_eq, h1]

/-- Witness for `ensure_token_single_login`: the three-step execution of a
single caller — fast-path miss, lock acquisition with a stale re-check,
login — ends with one login and the fresh generation-1 credential. -/
theorem ensure_token_single_login_instance :
    (⟨[⟨Pc.done, some 1⟩], true, 1, none, 1⟩ : Sys).logins = 1 ∧
    (⟨[⟨Pc.done, some 1⟩], true, 1, none, 1⟩ : Sys).gen = 1 ∧
    ∀ t ∈ (⟨[⟨Pc.done, some 1⟩], true, 1, none, 1⟩ : Sys).tasks,
      t.result = some (⟨[⟨Pc.done, some 1⟩], true, 1, none, 1⟩ : Sys).gen := by
  have hs1 : EnsureStep (ensureInit 1) ⟨[⟨Pc.acquiring, none⟩], false, 0, none, 0⟩ :=
    EnsureStep.fastStale (ensureInit 1) 0 ⟨Pc.start, none⟩ rfl rfl rfl
  have hs2 : EnsureStep ⟨[⟨Pc.acquiring, none⟩], false, 0, none, 0⟩
      ⟨[⟨Pc.loggingIn, none⟩], false, 0, some 0, 0⟩ :=
    EnsureStep.acquireStale _ 0 ⟨Pc.acquiring, none⟩ rfl rfl rfl rfl
  have hs3 : EnsureStep ⟨[⟨Pc.loggingIn, none⟩], false, 0, some 0, 0⟩
      ⟨[⟨Pc.done, some 1⟩], true, 1, none, 1⟩ :=
    EnsureStep.finishLogin _ 0 ⟨Pc.loggingIn, none⟩ rfl rfl rfl
  exact ensure_token_single_login 1 (by omega) _
    (Relation.ReflTransGen.head hs1 (Relation.ReflTransGen.head hs2
      (Relation.ReflTransGen.single hs3)))
    (by intro t ht; simp at ht; rw [ht])

end ReolinkTimelapse
